import Mathlib

/-
  Verification development for the ib-trading repository.

  The Python pipeline under verification:
  * `ChartHandler.update_data_with_sma`  (src/chart_handler/chart.py, lines 111-133)
  * `ChartHandler.update_chart`          (src/chart_handler/chart.py, lines 164-197)
  * `sma_crossover_signal` and `buy_or_sell_based_on_signals`
                                         (src/signals_handler/signals_handler.py)
  * `MockEClient.reqHistoricalData`      (src/ib_client/ib_client_mock.py, lines 119-134)

  Embedding conventions:
  * Python floats are modelled as `PyFloat`: an exact rational or NaN.  All the
    arithmetic the code performs (sums, means, `round(x, 2)`) is modelled
    exactly over the rationals; NaN propagates through sums and means the way
    pandas propagates it through `rolling(...).mean()`.
  * A Python bar dictionary is an insertion-ordered association list
    `PyDict = List (Key × PyVal)`.  Keys are modelled by the inductive `Key`;
    the f-string key `f"SMA_{period}"` of the source becomes `Key.sma period`
    (distinct periods give distinct strings in Python, and distinct `Key.sma`
    values here).  Assignment `d[k] = v` overwrites the first occurrence of the
    key in place when present and appends a new key at the end otherwise,
    exactly as in Python (whose dicts have unique keys and preserve insertion
    order).
  * The configured periods `config.SMA_SHORT_PERIOD` / `config.SMA_LONG_PERIOD`
    are module-level constants read at call time; they are passed here as
    explicit parameters `sP` / `lP`.
-/

/-- A Python value as it occurs in the bar dictionaries of this program:
a finite float (exact rational), the float NaN, Python's `None`, or an opaque
string/datetime. -/
inductive PyVal where
  | num : ℚ → PyVal
  | nan : PyVal
  | none : PyVal
  | str : String → PyVal
deriving DecidableEq, Repr

/-- A Python float: a finite value (modelled exactly as a rational) or NaN. -/
inductive PyFloat where
  | val : ℚ → PyFloat
  | nan : PyFloat
deriving DecidableEq, Repr

/-- A dictionary key of a bar dict.  `sma period` stands for the Python string
`f"SMA_{period}"` (the f-string is injective in the period, as is `sma`). -/
inductive Key where
  | date
  | open_
  | high
  | low
  | close
  | volume
  | sma (period : ℕ)
deriving DecidableEq, Repr

/-- A Python bar dictionary: an insertion-ordered association list. -/
abbrev PyDict := List (Key × PyVal)

/-- `d[k]` lookup: the value at the first occurrence of key `k`, if any. -/
def dictGet (d : PyDict) (k : Key) : Option PyVal :=
  (d.find? (fun p => p.1 == k)).map (fun p => p.2)

/-- `d[k] = v` assignment, Python-dict style: overwrite the value of the key in
place when it is already present, append the new key at the end otherwise. -/
def dictSet : PyDict → Key → PyVal → PyDict
  | [], k, v => [(k, v)]
  | p :: rest, k, v => if p.1 = k then (k, v) :: rest else p :: dictSet rest k v

theorem dictGet_nil (k : Key) : dictGet [] k = Option.none := rfl

theorem dictGet_cons (a : Key) (b : PyVal) (rest : PyDict) (k : Key) :
    dictGet ((a, b) :: rest) k = if a = k then some b else dictGet rest k := by
  by_cases h : a = k
  · simp [dictGet, List.find?, h]
  · have hb : (a == k) = false := by simp [h]
    simp [dictGet, List.find?, hb, h]

/-- Assignment then lookup at the same key returns the assigned value. -/
theorem dictGet_dictSet_self : ∀ (d : PyDict) (k : Key) (v : PyVal),
    dictGet (dictSet d k v) k = some v
  | [], k, v => by simp [dictSet, dictGet_cons]
  | (a, b) :: rest, k, v => by
    by_cases h : a = k
    · simp [dictSet, if_pos h, dictGet_cons]
    · rw [show dictSet ((a, b) :: rest) k v = (a, b) :: dictSet rest k v by
        simp [dictSet, h]]
      rw [dictGet_cons, if_neg h]
      exact dictGet_dictSet_self rest k v

/-- Assignment at key `k` does not change the value at any other key. -/
theorem dictGet_dictSet_ne : ∀ (d : PyDict) (k k' : Key) (v : PyVal), k' ≠ k →
    dictGet (dictSet d k v) k' = dictGet d k'
  | [], k, k', v, hk => by
    have hkk : ¬ k = k' := fun h => hk h.symm
    simp [dictSet, dictGet_cons, dictGet_nil, hkk]
  | (a, b) :: rest, k, k', v, hk => by
    by_cases h : a = k
    · rw [show dictSet ((a, b) :: rest) k v = (k, v) :: rest by simp [dictSet, h]]
      rw [dictGet_cons, dictGet_cons, if_neg (fun hkk => hk hkk.symm), if_neg]
      rw [h]
      exact fun hkk => hk hkk.symm
    · rw [show dictSet ((a, b) :: rest) k v = (a, b) :: dictSet rest k v by
        simp [dictSet, h]]
      rw [dictGet_cons, dictGet_cons]
      by_cases ha : a = k'
      · simp [ha]
      · simp only [if_neg ha]
        exact dictGet_dictSet_ne rest k k' v hk

/-- When the key is already present, assignment keeps the key list unchanged. -/
theorem keys_dictSet_present : ∀ (d : PyDict) (k : Key) (v : PyVal),
    dictGet d k ≠ Option.none →
    (dictSet d k v).map Prod.fst = d.map Prod.fst
  | [], k, v, h => absurd rfl h
  | (a, b) :: rest, k, v, h => by
    by_cases ha : a = k
    · simp [dictSet, ha]
    · rw [show dictSet ((a, b) :: rest) k v = (a, b) :: dictSet rest k v by
        simp [dictSet, ha]]
      rw [dictGet_cons, if_neg ha] at h
      simp only [List.map_cons]
      rw [keys_dictSet_present rest k v h]

/-- When the key is absent, assignment appends exactly that key at the end. -/
theorem keys_dictSet_absent : ∀ (d : PyDict) (k : Key) (v : PyVal),
    dictGet d k = Option.none →
    (dictSet d k v).map Prod.fst = d.map Prod.fst ++ [k]
  | [], k, v, _ => by simp [dictSet]
  | (a, b) :: rest, k, v, h => by
    rw [dictGet_cons] at h
    by_cases ha : a = k
    · rw [if_pos ha] at h
      exact absurd h (by simp)
    · rw [if_neg ha] at h
      rw [show dictSet ((a, b) :: rest) k v = (a, b) :: dictSet rest k v by
        simp [dictSet, ha]]
      simp only [List.map_cons, List.cons_append]
      rw [keys_dictSet_absent rest k v h]

/-- Python's `round(x, 2)` tie policy on the exact value: round half to even. -/
def roundHalfEven (q : ℚ) : ℤ :=
  if q - ⌊q⌋ < 1 / 2 then ⌊q⌋
  else if q - ⌊q⌋ > 1 / 2 then ⌊q⌋ + 1
  else if ⌊q⌋ % 2 = 0 then ⌊q⌋ else ⌊q⌋ + 1

/-- `round(x, 2)` of the source (chart.py line 129), modelled exactly. -/
def round2 (q : ℚ) : ℚ := (roundHalfEven (100 * q) : ℚ) / 100

/-- Sum of a list of Python floats; NaN absorbs, as in pandas. -/
def pfSum : List PyFloat → PyFloat
  | [] => PyFloat.val 0
  | PyFloat.val q :: xs =>
    match pfSum xs with
    | PyFloat.val s => PyFloat.val (q + s)
    | PyFloat.nan => PyFloat.nan
  | PyFloat.nan :: _ => PyFloat.nan

/-- Arithmetic mean of a list of Python floats; NaN absorbs, as in a pandas
rolling-window mean whose window contains a NaN. -/
def pfMean (l : List PyFloat) : PyFloat :=
  match pfSum l with
  | PyFloat.val s => PyFloat.val (s / l.length)
  | PyFloat.nan => PyFloat.nan

/-- `round(x, 2)` lifted to Python floats (`round(nan, 2)` is NaN). -/
def pfRound2 : PyFloat → PyFloat
  | PyFloat.val q => PyFloat.val (round2 q)
  | PyFloat.nan => PyFloat.nan

/-- Re-inject a Python float into the value type of a dictionary entry. -/
def pfToVal : PyFloat → PyVal
  | PyFloat.val q => PyVal.num q
  | PyFloat.nan => PyVal.nan

/-- The `close` of a bar dict as pandas sees it in a numeric column: a finite
number when the entry is numeric, NaN when it is missing, `None`, or NaN. -/
def closeVal (d : PyDict) : PyFloat :=
  match dictGet d Key.close with
  | some (PyVal.num q) => PyFloat.val q
  | _ => PyFloat.nan

/-- `ChartHandler.update_data_with_sma` (chart.py lines 111-133).

```python
temp_bars = bars + [data]
temp_df   = pd.DataFrame(temp_bars)
if len(temp_df) >= period:
    sma_value = temp_df['close'].rolling(window=period).mean().iloc[-1]
    data[f'SMA_{period}'] = round(sma_value, 2)
else:
    data[f'SMA_{period}'] = None
return data
```

`rolling(window=period).mean().iloc[-1]` is the mean of the last `period`
closes of `temp_bars` (NaN when any of them is NaN).  The pandas coercion of a
missing/`None` close to NaN is `closeVal`. -/
def update_data_with_sma (period : ℕ) (bars : List PyDict) (data : PyDict) : PyDict :=
  let temp_bars := bars ++ [data]
  if period ≤ temp_bars.length then
    dictSet data (Key.sma period)
      (pfToVal (pfRound2 (pfMean
        ((temp_bars.map closeVal).drop (temp_bars.length - period)))))
  else
    dictSet data (Key.sma period) PyVal.none

/-- One SMA-annotating step, phrased over the list of prior closes instead of
the list of prior bar dicts; `update_eq_smaStep` proves it equal to
`update_data_with_sma`. -/
def smaStep (period : ℕ) (prior : List PyFloat) (data : PyDict) : PyDict :=
  if period ≤ prior.length + 1 then
    dictSet data (Key.sma period)
      (pfToVal (pfRound2 (pfMean
        ((prior ++ [closeVal data]).drop (prior.length + 1 - period)))))
  else
    dictSet data (Key.sma period) PyVal.none

theorem update_eq_smaStep (period : ℕ) (bars : List PyDict) (data : PyDict) :
    update_data_with_sma period bars data = smaStep period (bars.map closeVal) data := by
  simp [update_data_with_sma, smaStep]

theorem closeVal_dictSet_sma (d : PyDict) (P : ℕ) (v : PyVal) :
    closeVal (dictSet d (Key.sma P) v) = closeVal d := by
  unfold closeVal
  rw [dictGet_dictSet_ne d (Key.sma P) Key.close v (by simp)]

theorem closeVal_smaStep (P : ℕ) (prior : List PyFloat) (d : PyDict) :
    closeVal (smaStep P prior d) = closeVal d := by
  unfold smaStep
  split <;> exact closeVal_dictSet_sma d P _

/-- The accumulation loop of `update_chart` restricted to a single SMA period:
each queue item is annotated against the bars received so far and then appended
to them (chart.py lines 176-181 with one `update_data_with_sma` call). -/
def annotateSMAGo (P : ℕ) (bars : List PyDict) : List PyDict → List PyDict
  | [] => bars
  | d :: rest => annotateSMAGo P (bars ++ [update_data_with_sma P bars d]) rest

/-- Feeding a sequence of bars, in order, to `update_data_with_sma` with a
fixed period, starting from an empty history. -/
def annotateSMA (P : ℕ) (ds : List PyDict) : List PyDict := annotateSMAGo P [] ds

/-- Structural form of the same loop, carrying only the prior closes. -/
def annotateFrom (P : ℕ) (prior : List PyFloat) : List PyDict → List PyDict
  | [] => []
  | d :: rest => smaStep P prior d :: annotateFrom P (prior ++ [closeVal d]) rest

theorem annotateSMAGo_eq (P : ℕ) :
    ∀ (ds bars : List PyDict),
      annotateSMAGo P bars ds = bars ++ annotateFrom P (bars.map closeVal) ds
  | [], bars => by simp [annotateSMAGo, annotateFrom]
  | d :: rest, bars => by
    rw [show annotateSMAGo P bars (d :: rest) =
          annotateSMAGo P (bars ++ [update_data_with_sma P bars d]) rest from rfl]
    rw [annotateSMAGo_eq P rest (bars ++ [update_data_with_sma P bars d])]
    rw [update_eq_smaStep]
    simp [annotateFrom, closeVal_smaStep]

theorem annotateFrom_length (P : ℕ) :
    ∀ (ds : List PyDict) (prior : List PyFloat),
      (annotateFrom P prior ds).length = ds.length
  | [], _ => rfl
  | d :: rest, prior => by
    simp [annotateFrom, annotateFrom_length P rest]

theorem annotateSMA_length (P : ℕ) (ds : List PyDict) :
    (annotateSMA P ds).length = ds.length := by
  rw [annotateSMA, annotateSMAGo_eq]
  simp [annotateFrom_length]

/-- The `i`-th bar produced by the annotation loop carries, under `SMA_P`, the
value computed from the trailing `P` closes of `prior ++ closes-so-far`, or
`None` while fewer than `P` closes have been seen. -/
theorem annotateFrom_getD (P : ℕ) :
    ∀ (ds : List PyDict) (prior : List PyFloat) (i : ℕ), i < ds.length →
      dictGet ((annotateFrom P prior ds).getD i []) (Key.sma P) =
        some (if prior.length + i + 1 < P then PyVal.none
              else pfToVal (pfRound2 (pfMean
                ((prior ++ (ds.map closeVal).take (i + 1)).drop
                  (prior.length + i + 1 - P)))))
  | [], _, i, hi => absurd hi (by simp)
  | d :: rest, prior, 0, _ => by
    rw [show annotateFrom P prior (d :: rest) =
          smaStep P prior d :: annotateFrom P (prior ++ [closeVal d]) rest from rfl]
    rw [List.getD_cons_zero]
    have h2 : ((d :: rest).map closeVal).take (0 + 1) = [closeVal d] := rfl
    rw [h2]
    unfold smaStep
    by_cases hP : P ≤ prior.length + 1
    · rw [if_pos hP, dictGet_dictSet_self,
        if_neg (show ¬ prior.length + 0 + 1 < P by omega)]
    · rw [if_neg hP, dictGet_dictSet_self,
        if_pos (show prior.length + 0 + 1 < P by omega)]
  | d :: rest, prior, i + 1, hi => by
    have hi' : i < rest.length := by
      simpa using Nat.lt_of_succ_lt_succ hi
    rw [show annotateFrom P prior (d :: rest) =
          smaStep P prior d :: annotateFrom P (prior ++ [closeVal d]) rest from rfl]
    rw [List.getD_cons_succ]
    rw [annotateFrom_getD P rest (prior ++ [closeVal d]) i hi']
    have h1 : (prior ++ [closeVal d]).length + i + 1 = prior.length + (i + 1) + 1 := by
      simp
      omega
    rw [h1]
    have h2 : prior ++ [closeVal d] ++ (rest.map closeVal).take (i + 1) =
        prior ++ ((d :: rest).map closeVal).take (i + 1 + 1) := by
      simp [List.take_succ_cons]
    rw [h2]

theorem pfSum_map_val : ∀ l : List ℚ, pfSum (l.map PyFloat.val) = PyFloat.val l.sum
  | [] => rfl
  | q :: rest => by
    simp only [List.map_cons, pfSum, pfSum_map_val rest, List.sum_cons]

theorem pfMean_map_val (l : List ℚ) :
    pfMean (l.map PyFloat.val) = PyFloat.val (l.sum / l.length) := by
  simp [pfMean, pfSum_map_val]

/-- C1: feeding bars in order to `update_data_with_sma` with period `P ≥ 1`,
the `SMA_P` entry of the `i`-th bar (0-based, so the claim's 1-based bar
`i + 1`) is `None` while `i + 1 < P`, and once `i + 1 ≥ P` it is the
arithmetic mean of closes `i + 1 - P` through `i`, rounded to 2 decimal
places. -/
theorem sma_update_spec (P : ℕ) (hP : 1 ≤ P) (ds : List PyDict) (closes : List ℚ)
    (hclose : ds.map closeVal = closes.map PyFloat.val)
    (i : ℕ) (hi : i < ds.length) :
    dictGet ((annotateSMA P ds).getD i []) (Key.sma P) =
      some (if i + 1 < P then PyVal.none
            else PyVal.num (round2 (((closes.take (i + 1)).drop (i + 1 - P)).sum / P))) := by
  rw [annotateSMA, annotateSMAGo_eq]
  simp only [List.map_nil, List.nil_append]
  rw [annotateFrom_getD P ds [] i hi]
  simp only [List.length_nil, Nat.zero_add, List.nil_append]
  rw [hclose, ← List.map_take, ← List.map_drop, pfMean_map_val]
  by_cases hip : i + 1 < P
  · rw [if_pos hip, if_pos hip]
  · rw [if_neg hip, if_neg hip]
    have hcl : closes.length = ds.length := by
      have := congrArg List.length hclose
      simpa using this.symm
    have hlen : ((closes.take (i + 1)).drop (i + 1 - P)).length = P := by
      simp only [List.length_drop, List.length_take]
      omega
    rw [hlen]
    rfl

theorem pfSum_nan : ∀ l : List PyFloat, PyFloat.nan ∈ l → pfSum l = PyFloat.nan
  | [], h => absurd h (List.not_mem_nil _)
  | PyFloat.val q :: rest, h => by
    have hr : PyFloat.nan ∈ rest := by
      cases List.mem_cons.mp h with
      | inl h1 => cases h1
      | inr h1 => exact h1
    simp [pfSum, pfSum_nan rest hr]
  | PyFloat.nan :: rest, _ => rfl

theorem pfMean_nan (l : List PyFloat) (h : PyFloat.nan ∈ l) :
    pfMean l = PyFloat.nan := by
  simp [pfMean, pfSum_nan l h]

/-- C4 (amended): `update_data_with_sma` has no `InvalidBar` rejection.  A bar
whose close is NaN is incorporated into the rolling window like any other bar,
and every bar whose trailing `P`-close window contains it — in particular the
next valid bar when `P ≥ 2` — is annotated with NaN, not with the value it
would have carried had the invalid bar never been enqueued. -/
theorem nan_close_poisons_sma (P : ℕ) (ds : List PyDict)
    (j i : ℕ) (hi : i < ds.length) (hj : j ≤ i)
    (hnan : closeVal (ds.getD j []) = PyFloat.nan)
    (hwin : i < j + P) (havail : P ≤ i + 1) :
    dictGet ((annotateSMA P ds).getD i []) (Key.sma P) = some PyVal.nan := by
  rw [annotateSMA, annotateSMAGo_eq]
  simp only [List.map_nil, List.nil_append]
  rw [annotateFrom_getD P ds [] i hi]
  simp only [List.length_nil, Nat.zero_add, List.nil_append]
  rw [if_neg (show ¬ i + 1 < P by omega)]
  have hjlen : j < ds.length := lt_of_le_of_lt hj hi
  have hmem : PyFloat.nan ∈ ((ds.map closeVal).take (i + 1)).drop (i + 1 - P) := by
    have h1 : (((ds.map closeVal).take (i + 1)).drop (i + 1 - P))[j - (i + 1 - P)]? =
        ((ds.map closeVal).take (i + 1))[i + 1 - P + (j - (i + 1 - P))]? :=
      List.getElem?_drop _ _ _
    have harg : i + 1 - P + (j - (i + 1 - P)) = j := by omega
    rw [harg] at h1
    rw [List.getElem?_take_of_lt (show j < i + 1 by omega)] at h1
    rw [List.getElem?_map] at h1
    rw [List.getElem?_eq_getElem hjlen] at h1
    rw [show ds[j] = ds.getD j [] from (List.getD_eq_getElem ds [] hjlen).symm] at h1
    simp only [Option.map_some'] at h1
    rw [hnan] at h1
    exact List.get?_mem ((List.get?_eq_getElem? _ _).trans h1)
  rw [pfMean_nan _ hmem]
  rfl

/-- A discrete trading signal ("buy" / "sell" strings of the source). -/
inductive Signal where
  | buy
  | sell
deriving DecidableEq, Repr

/-- `pd.notna` on the value a dict holds under `k`, as used by
`dropna(subset=[...])`: true exactly for a finite numeric value (a missing key,
`None`, or NaN is dropped). -/
def isAvail (d : PyDict) (k : Key) : Bool :=
  match dictGet d k with
  | some (PyVal.num _) => true
  | _ => false

/-- The numeric value a dict holds under `k` (meaningful when `isAvail`). -/
def getQ (d : PyDict) (k : Key) : ℚ :=
  match dictGet d k with
  | some (PyVal.num q) => q
  | _ => 0

/-- A column named `k` exists in `pd.DataFrame(bars)`: some bar has the key. -/
def colExists (bars : List PyDict) (k : Key) : Bool :=
  bars.any (fun b => (dictGet b k).isSome)

/-- `df[col].dropna().empty`: no bar holds a finite numeric value under `k`. -/
def colAllUnavail (bars : List PyDict) (k : Key) : Bool :=
  bars.all (fun b => ! isAvail b k)

/-- `sma_crossover_signal` (signals_handler.py lines 7-58), with the configured
periods `config.SMA_SHORT_PERIOD` / `config.SMA_LONG_PERIOD` passed as `sP` /
`lP`.

The source returns `None` when either SMA column is missing from the frame or
holds no valid value; otherwise it drops every row in which either SMA is
NaN/`None` (`dropna(subset=[...])`, line 38-42), requires at least two
*remaining* rows (line 44), and compares the last two remaining rows
(lines 46-57).  The `pd.notna` re-check of line 53 is always true for rows
that survived the `dropna` and is therefore not repeated here.  The selection
of the `date` column (line 38) does not influence the returned value and is
elided; theorems that rely on the exception-free path carry a hypothesis that
a `date` column exists. -/
def sma_crossover_signal (sP lP : ℕ) (bars : List PyDict) : Option Signal :=
  if ! colExists bars (Key.sma sP) || ! colExists bars (Key.sma lP) then
    Option.none
  else if colAllUnavail bars (Key.sma sP) || colAllUnavail bars (Key.sma lP) then
    Option.none
  else
    match (bars.filter
        (fun b => isAvail b (Key.sma sP) && isAvail b (Key.sma lP))).reverse with
    | cbar :: pbar :: _ =>
      if getQ cbar (Key.sma sP) > getQ cbar (Key.sma lP) ∧
          getQ pbar (Key.sma sP) ≤ getQ pbar (Key.sma lP) then
        some Signal.buy
      else if getQ cbar (Key.sma sP) < getQ cbar (Key.sma lP) ∧
          getQ pbar (Key.sma sP) ≥ getQ pbar (Key.sma lP) then
        some Signal.sell
      else
        Option.none
    | _ => Option.none

/-- `buy_or_sell_based_on_signals` (signals_handler.py lines 66-84): the list
of wired rules is `[sma_crossover_signal]` and the result of the last (only)
rule is passed through unchanged. -/
def buy_or_sell_based_on_signals (sP lP : ℕ) (bars : List PyDict) : Option Signal :=
  sma_crossover_signal sP lP bars

/-- C2: when the last two bars of the list both carry available (finite
numeric) short and long SMA values, `sma_crossover_signal` returns Buy exactly
when `short[t] > long[t]` and `short[t-1] <= long[t-1]`, Sell exactly when
`short[t] < long[t]` and `short[t-1] >= long[t-1]`, and None otherwise — in
particular equality at `t-1` followed by a strict inequality at `t` counts as
a crossover.  `hd` records that the frame has a `date` column (the source
selects it; without it the call would raise instead of returning). -/
theorem crossover_rule (sP lP : ℕ) (rest : List PyDict) (prev cur : PyDict)
    (ps pl cs cl : ℚ)
    (_hd : (rest ++ [prev, cur]).any (fun b => (dictGet b Key.date).isSome) = true)
    (hps : dictGet prev (Key.sma sP) = some (PyVal.num ps))
    (hpl : dictGet prev (Key.sma lP) = some (PyVal.num pl))
    (hcs : dictGet cur (Key.sma sP) = some (PyVal.num cs))
    (hcl : dictGet cur (Key.sma lP) = some (PyVal.num cl)) :
    sma_crossover_signal sP lP (rest ++ [prev, cur]) =
      if cs > cl ∧ ps ≤ pl then some Signal.buy
      else if cs < cl ∧ ps ≥ pl then some Signal.sell
      else Option.none := by
  have hpa : isAvail prev (Key.sma sP) = true := by simp [isAvail, hps]
  have hpb : isAvail prev (Key.sma lP) = true := by simp [isAvail, hpl]
  have hca : isAvail cur (Key.sma sP) = true := by simp [isAvail, hcs]
  have hcb : isAvail cur (Key.sma lP) = true := by simp [isAvail, hcl]
  have he1 : colExists (rest ++ [prev, cur]) (Key.sma sP) = true := by
    simp [colExists, hcs]
  have he2 : colExists (rest ++ [prev, cur]) (Key.sma lP) = true := by
    simp [colExists, hcl]
  have hu1 : colAllUnavail (rest ++ [prev, cur]) (Key.sma sP) = false := by
    simp [colAllUnavail, hca]
  have hu2 : colAllUnavail (rest ++ [prev, cur]) (Key.sma lP) = false := by
    simp [colAllUnavail, hcb]
  have hfil : (rest ++ [prev, cur]).filter
      (fun b => isAvail b (Key.sma sP) && isAvail b (Key.sma lP)) =
      rest.filter (fun b => isAvail b (Key.sma sP) && isAvail b (Key.sma lP)) ++
        [prev, cur] := by
    rw [List.filter_append]
    congr 1
    simp [List.filter, hpa, hpb, hca, hcb]
  unfold sma_crossover_signal
  rw [he1, he2, hu1, hu2]
  simp only [Bool.not_true, Bool.or_self, Bool.false_or, Bool.or_false,
    Bool.false_eq_true, if_false]
  rw [hfil, List.reverse_append]
  simp only [List.reverse_cons, List.reverse_nil, List.nil_append,
    List.cons_append]
  simp [getQ, hps, hpl, hcs, hcl]

theorem crossover_rule_witness :
    sma_crossover_signal 2 3
      [[(Key.date, PyVal.str "t1"), (Key.sma 2, PyVal.num 1), (Key.sma 3, PyVal.num 1)],
       [(Key.date, PyVal.str "t2"), (Key.sma 2, PyVal.num 3), (Key.sma 3, PyVal.num 2)]] =
      some Signal.buy :=
  (crossover_rule 2 3 []
      [(Key.date, PyVal.str "t1"), (Key.sma 2, PyVal.num 1), (Key.sma 3, PyVal.num 1)]
      [(Key.date, PyVal.str "t2"), (Key.sma 2, PyVal.num 3), (Key.sma 3, PyVal.num 2)]
      1 1 3 2 (by decide) (by decide) (by decide) (by decide) (by decide)).trans
    (by decide)

/-- C3 (counterexample): the short SMA is unavailable (`None`) on the most
recent bar, yet the engine returns Buy — the `dropna` of lines 38-42 silently
skips the unavailable row and compares the two bars before it. -/
theorem stale_crossover_counterexample :
    sma_crossover_signal 2 3
      [[(Key.date, PyVal.str "t1"), (Key.sma 2, PyVal.num 1), (Key.sma 3, PyVal.num 2)],
       [(Key.date, PyVal.str "t2"), (Key.sma 2, PyVal.num 3), (Key.sma 3, PyVal.num 2)],
       [(Key.date, PyVal.str "t3"), (Key.sma 2, PyVal.none), (Key.sma 3, PyVal.num 2)]] =
      some Signal.buy := by
  decide

/-- C3 (amended): when fewer than two bars carry both SMAs as finite numeric
values, the engine emits None.  (Unavailability on the most recent bars alone
does not force None: the `dropna` skips those bars, see
`stale_crossover_counterexample`.) -/
theorem insufficient_rows_yield_none (sP lP : ℕ) (bars : List PyDict)
    (_hd : bars.any (fun b => (dictGet b Key.date).isSome) = true)
    (h : (bars.filter
        (fun b => isAvail b (Key.sma sP) && isAvail b (Key.sma lP))).length < 2) :
    sma_crossover_signal sP lP bars = Option.none := by
  unfold sma_crossover_signal
  split
  · rfl
  · split
    · rfl
    · rcases hr : (bars.filter
          (fun b => isAvail b (Key.sma sP) && isAvail b (Key.sma lP))).reverse with
        _ | ⟨c, _ | ⟨p, t⟩⟩
      · simp [hr]
      · simp [hr]
      · exfalso
        have := congrArg List.length hr
        simp at this
        omega

theorem insufficient_rows_yield_none_witness :
    sma_crossover_signal 2 3
      [[(Key.date, PyVal.str "t1"), (Key.sma 2, PyVal.num 1), (Key.sma 3, PyVal.num 2)]] =
      Option.none :=
  insufficient_rows_yield_none 2 3
    [[(Key.date, PyVal.str "t1"), (Key.sma 2, PyVal.num 1), (Key.sma 3, PyVal.num 2)]]
    (by decide) (by decide)

theorem sma_update_spec_witness :
    dictGet ((annotateSMA 2
        [[(Key.close, PyVal.num 1)], [(Key.close, PyVal.num 3)]]).getD 1 [])
      (Key.sma 2) = some (PyVal.num 2) :=
  (sma_update_spec 2 (by decide)
      [[(Key.close, PyVal.num 1)], [(Key.close, PyVal.num 3)]] [1, 3]
      (by decide) 1 (by decide)).trans
    (by norm_num [round2, roundHalfEven])

/-- C4 (counterexample): a NaN close mid-stream is not rejected; with period 2
the bar after it is annotated `SMA_2 = NaN`, whereas with the invalid bar never
enqueued the same bar would have been annotated `SMA_2 = 2`. -/
theorem invalid_bar_counterexample :
    dictGet ((annotateSMA 2
        [[(Key.close, PyVal.num 1)], [(Key.close, PyVal.nan)],
         [(Key.close, PyVal.num 3)]]).getD 2 []) (Key.sma 2) = some PyVal.nan ∧
    dictGet ((annotateSMA 2
        [[(Key.close, PyVal.num 1)], [(Key.close, PyVal.num 3)]]).getD 1 [])
      (Key.sma 2) = some (PyVal.num 2) ∧
    PyVal.nan ≠ PyVal.num 2 := by
  refine ⟨?_, ?_, by decide⟩
  · norm_num [annotateSMA, annotateSMAGo, update_data_with_sma, dictSet,
      dictGet_cons, dictGet_nil, closeVal, pfMean, pfSum, pfRound2, pfToVal]
    simp [dictGet_cons]
  · norm_num [annotateSMA, annotateSMAGo, update_data_with_sma, dictSet,
      dictGet_cons, dictGet_nil, closeVal, pfMean, pfSum, pfRound2, pfToVal,
      round2, roundHalfEven]
    simp [dictGet_cons]

theorem nan_close_poisons_sma_witness :
    dictGet ((annotateSMA 2
        [[(Key.close, PyVal.num 1)], [(Key.close, PyVal.nan)],
         [(Key.close, PyVal.num 3)]]).getD 2 []) (Key.sma 2) = some PyVal.nan :=
  nan_close_poisons_sma 2
    [[(Key.close, PyVal.num 1)], [(Key.close, PyVal.nan)], [(Key.close, PyVal.num 3)]]
    1 2 (by decide) (by decide) (by decide) (by decide) (by decide)

/-- The drain loop of `ChartHandler.update_chart` (chart.py lines 176-181):
each dequeued bar is annotated with the short SMA, then the long SMA (both
calls mutate the same dict, against the bars accumulated so far), and is then
appended to the accumulated bars.  The queue is FIFO, so the input list is in
enqueue order. -/
def update_chart_bars (sP lP : ℕ) (bars : List PyDict) : List PyDict → List PyDict
  | [] => bars
  | d :: q =>
    update_chart_bars sP lP
      (bars ++ [update_data_with_sma lP bars (update_data_with_sma sP bars d)]) q

/-- One drained bar's double annotation, over the prior closes. -/
def chartStep (sP lP : ℕ) (prior : List PyFloat) (d : PyDict) : PyDict :=
  smaStep lP prior (smaStep sP prior d)

/-- Structural form of the drain loop, carrying only the prior closes. -/
def chartFrom (sP lP : ℕ) (prior : List PyFloat) : List PyDict → List PyDict
  | [] => []
  | d :: q => chartStep sP lP prior d :: chartFrom sP lP (prior ++ [closeVal d]) q

theorem update2_eq_chartStep (sP lP : ℕ) (bars : List PyDict) (d : PyDict) :
    update_data_with_sma lP bars (update_data_with_sma sP bars d) =
      chartStep sP lP (bars.map closeVal) d := by
  rw [update_eq_smaStep sP bars d, update_eq_smaStep lP bars _, chartStep]

theorem closeVal_chartStep (sP lP : ℕ) (prior : List PyFloat) (d : PyDict) :
    closeVal (chartStep sP lP prior d) = closeVal d := by
  rw [chartStep, closeVal_smaStep, closeVal_smaStep]

theorem update_chart_bars_eq (sP lP : ℕ) :
    ∀ (q bars : List PyDict),
      update_chart_bars sP lP bars q = bars ++ chartFrom sP lP (bars.map closeVal) q
  | [], bars => by simp [update_chart_bars, chartFrom]
  | d :: q, bars => by
    rw [show update_chart_bars sP lP bars (d :: q) =
          update_chart_bars sP lP
            (bars ++ [update_data_with_sma lP bars (update_data_with_sma sP bars d)]) q
        from rfl]
    rw [update_chart_bars_eq sP lP q]
    rw [update2_eq_chartStep]
    simp [chartFrom, closeVal_chartStep]

theorem chartFrom_length (sP lP : ℕ) :
    ∀ (q : List PyDict) (prior : List PyFloat),
      (chartFrom sP lP prior q).length = q.length
  | [], _ => rfl
  | d :: q, prior => by simp [chartFrom, chartFrom_length sP lP q]

theorem chartFrom_getD (sP lP : ℕ) :
    ∀ (q : List PyDict) (prior : List PyFloat) (i : ℕ), i < q.length →
      (chartFrom sP lP prior q).getD i [] =
        chartStep sP lP (prior ++ (q.map closeVal).take i) (q.getD i [])
  | [], _, i, hi => absurd hi (by simp)
  | d :: q, prior, 0, _ => by
    rw [show chartFrom sP lP prior (d :: q) =
          chartStep sP lP prior d :: chartFrom sP lP (prior ++ [closeVal d]) q from rfl]
    rw [List.getD_cons_zero, List.getD_cons_zero]
    simp
  | d :: q, prior, i + 1, hi => by
    have hi' : i < q.length := by simpa using Nat.lt_of_succ_lt_succ hi
    rw [show chartFrom sP lP prior (d :: q) =
          chartStep sP lP prior d :: chartFrom sP lP (prior ++ [closeVal d]) q from rfl]
    rw [List.getD_cons_succ, List.getD_cons_succ]
    rw [chartFrom_getD sP lP q (prior ++ [closeVal d]) i hi']
    congr 1
    simp [List.take_succ_cons]

theorem smaStep_shape (P : ℕ) (prior : List PyFloat) (d : PyDict) :
    ∃ v, smaStep P prior d = dictSet d (Key.sma P) v := by
  unfold smaStep
  split
  · exact ⟨_, rfl⟩
  · exact ⟨_, rfl⟩

/-- C8: one drain cycle produces exactly one annotated bar per enqueued bar,
in enqueue (FIFO) order: the output has the same length, and its `i`-th
element is the `i`-th enqueued bar with the two SMA keys set — nothing is
reordered, duplicated, or dropped.  `hq` records that enqueued bars carry a
`close` entry (as every bar built by `historicalData` does). -/
theorem drain_is_one_to_one (sP lP : ℕ) (q : List PyDict)
    (_hq : ∀ d ∈ q, (dictGet d Key.close).isSome = true) :
    (update_chart_bars sP lP [] q).length = q.length ∧
    ∀ i, i < q.length → ∃ vs vl,
      (update_chart_bars sP lP [] q).getD i [] =
        dictSet (dictSet (q.getD i []) (Key.sma sP) vs) (Key.sma lP) vl := by
  constructor
  · rw [update_chart_bars_eq]
    simp [chartFrom_length]
  · intro i hi
    rw [update_chart_bars_eq]
    simp only [List.map_nil, List.nil_append]
    rw [chartFrom_getD sP lP q [] i hi]
    obtain ⟨vs, hvs⟩ := smaStep_shape sP ([] ++ (q.map closeVal).take i) (q.getD i [])
    obtain ⟨vl, hvl⟩ := smaStep_shape lP ([] ++ (q.map closeVal).take i)
      (dictSet (q.getD i []) (Key.sma sP) vs)
    refine ⟨vs, vl, ?_⟩
    rw [chartStep, hvs, hvl]

theorem drain_is_one_to_one_witness :
    (update_chart_bars 2 3 [] [[(Key.close, PyVal.num 1)]]).length = 1 ∧
    ∃ vs vl, (update_chart_bars 2 3 [] [[(Key.close, PyVal.num 1)]]).getD 0 [] =
      dictSet (dictSet [(Key.close, PyVal.num 1)] (Key.sma 2) vs) (Key.sma 3) vl :=
  ⟨(drain_is_one_to_one 2 3 [[(Key.close, PyVal.num 1)]] (by decide)).1,
   (drain_is_one_to_one 2 3 [[(Key.close, PyVal.num 1)]] (by decide)).2 0 (by decide)⟩

/-- The spec scenario: closes `[10, 11, 12, 13, 9, 8]`. -/
def scenarioBars : List PyDict :=
  [[(Key.date, PyVal.str "b1"), (Key.close, PyVal.num 10)],
   [(Key.date, PyVal.str "b2"), (Key.close, PyVal.num 11)],
   [(Key.date, PyVal.str "b3"), (Key.close, PyVal.num 12)],
   [(Key.date, PyVal.str "b4"), (Key.close, PyVal.num 13)],
   [(Key.date, PyVal.str "b5"), (Key.close, PyVal.num 9)],
   [(Key.date, PyVal.str "b6"), (Key.close, PyVal.num 8)]]

/-- The scenario bars once drained with short period 2 and long period 3. -/
def scenarioAnnotated : List PyDict :=
  [[(Key.date, PyVal.str "b1"), (Key.close, PyVal.num 10),
    (Key.sma 2, PyVal.none), (Key.sma 3, PyVal.none)],
   [(Key.date, PyVal.str "b2"), (Key.close, PyVal.num 11),
    (Key.sma 2, PyVal.num 10.5), (Key.sma 3, PyVal.none)],
   [(Key.date, PyVal.str "b3"), (Key.close, PyVal.num 12),
    (Key.sma 2, PyVal.num 11.5), (Key.sma 3, PyVal.num 11)],
   [(Key.date, PyVal.str "b4"), (Key.close, PyVal.num 13),
    (Key.sma 2, PyVal.num 12.5), (Key.sma 3, PyVal.num 12)],
   [(Key.date, PyVal.str "b5"), (Key.close, PyVal.num 9),
    (Key.sma 2, PyVal.num 11), (Key.sma 3, PyVal.num 11.33)],
   [(Key.date, PyVal.str "b6"), (Key.close, PyVal.num 8),
    (Key.sma 2, PyVal.num 8.5), (Key.sma 3, PyVal.num 10)]]

theorem scenario_annotated_eq :
    update_chart_bars 2 3 [] scenarioBars = scenarioAnnotated := by
  norm_num [scenarioBars, scenarioAnnotated, update_chart_bars,
    update_data_with_sma, dictSet, dictGet_cons, dictGet_nil, closeVal,
    pfMean, pfSum, pfRound2, pfToVal, round2, roundHalfEven]
  simp

theorem scenario5_annotated_eq :
    update_chart_bars 2 3 [] (scenarioBars.take 5) = scenarioAnnotated.take 5 := by
  norm_num [scenarioBars, scenarioAnnotated, update_chart_bars,
    update_data_with_sma, dictSet, dictGet_cons, dictGet_nil, closeVal,
    pfMean, pfSum, pfRound2, pfToVal, round2, roundHalfEven]
  simp

/-- C5 (counterexample): on the scenario closes `[10,11,12,13,9,8]` with
short period 2 and long period 3, the signal evaluated over bars 5 and 6
(i.e. on the fully drained list, whose last two valid rows are bars 5 and 6)
is None, not Sell: at bar 5 the short SMA (11) is already below the long SMA
(11.33), so `p_sma_short >= p_sma_long` fails on line 56. -/
theorem scenario_signal_counterexample :
    buy_or_sell_based_on_signals 2 3 (update_chart_bars 2 3 [] scenarioBars) =
      Option.none ∧
    buy_or_sell_based_on_signals 2 3 (update_chart_bars 2 3 [] scenarioBars) ≠
      some Signal.sell := by
  have h : buy_or_sell_based_on_signals 2 3 (update_chart_bars 2 3 [] scenarioBars) =
      Option.none := by
    rw [scenario_annotated_eq]
    simp [scenarioAnnotated, buy_or_sell_based_on_signals,
      sma_crossover_signal, colExists, colAllUnavail, isAvail, getQ,
      dictGet_cons, dictGet_nil, List.filter]
    norm_num
  refine ⟨h, ?_⟩
  rw [h]
  exact fun hc => Option.noConfusion hc

/-- C5 (amended): on closes `[10,11,12,13,9,8]` with periods short=2, long=3,
the short SMA is available from bar 2 with values `[10.5,11.5,12.5,11,8.5]`
and the long SMA from bar 3 with values `[11,12,11.33,10]`, exactly as the
spec lists them; but the short SMA drops below the long SMA between bars 4
and 5, so the crossover evaluation when bar 5 arrives yields Sell, and the
evaluation over bars 5 and 6 yields None. -/
theorem scenario_sell_at_bar5 :
    ((update_chart_bars 2 3 [] scenarioBars).map (fun d => dictGet d (Key.sma 2)) =
      [some PyVal.none, some (PyVal.num 10.5), some (PyVal.num 11.5),
       some (PyVal.num 12.5), some (PyVal.num 11), some (PyVal.num 8.5)]) ∧
    ((update_chart_bars 2 3 [] scenarioBars).map (fun d => dictGet d (Key.sma 3)) =
      [some PyVal.none, some PyVal.none, some (PyVal.num 11), some (PyVal.num 12),
       some (PyVal.num 11.33), some (PyVal.num 10)]) ∧
    buy_or_sell_based_on_signals 2 3 (update_chart_bars 2 3 [] (scenarioBars.take 5)) =
      some Signal.sell ∧
    buy_or_sell_based_on_signals 2 3 (update_chart_bars 2 3 [] scenarioBars) =
      Option.none := by
  refine ⟨?_, ?_, ?_, ?_⟩
  · rw [scenario_annotated_eq]
    simp [scenarioAnnotated, dictGet_cons, dictGet_nil]
  · rw [scenario_annotated_eq]
    simp [scenarioAnnotated, dictGet_cons, dictGet_nil]
  · rw [scenario5_annotated_eq]
    simp [scenarioAnnotated, buy_or_sell_based_on_signals,
      sma_crossover_signal, colExists, colAllUnavail, isAvail, getQ,
      dictGet_cons, dictGet_nil, List.filter]
    norm_num
  · rw [scenario_annotated_eq]
    simp [scenarioAnnotated, buy_or_sell_based_on_signals,
      sma_crossover_signal, colExists, colAllUnavail, isAvail, getQ,
      dictGet_cons, dictGet_nil, List.filter]
    norm_num

/-- An observable side effect of one `update_chart` drain cycle. -/
inductive Event where
  | annSMA (barIdx period : ℕ)
  | sigEval (barIdx : ℕ)
  | chartSet
  | orderDispatch
deriving DecidableEq, Repr

/-- The per-bar effects of the drain loop (chart.py lines 176-185), for bars
`k, k+1, ...`: each iteration annotates the current bar with the short SMA
(line 178), then the long SMA (line 179), then evaluates the signal over the
bars so far (line 184). -/
def update_chart_events (sP lP : ℕ) : ℕ → ℕ → List Event
  | _, 0 => []
  | k, n + 1 =>
    Event.annSMA k sP :: Event.annSMA k lP :: Event.sigEval k ::
      update_chart_events sP lP (k + 1) n

/-- The effect trace of one `update_chart` cycle draining `n` bars
(chart.py lines 170-197): the loop effects, then — unless the batch was empty
(line 187) — the chart update (line 195).  `update_chart` dispatches no order:
the computed signal is dropped (line 184, `#print(signal)` commented out), and
`show_sma_line` only updates chart overlays. -/
def update_chart_trace (sP lP n : ℕ) : List Event :=
  update_chart_events sP lP 0 n ++ (if n = 0 then [] else [Event.chartSet])

/-- C6 (counterexample): in a two-bar drain cycle the signal evaluation for
bar 0 (position 2) happens before the short-SMA annotation of bar 1
(position 3): indicator annotation does not complete for the whole batch
before signal evaluation begins. -/
theorem interleaving_counterexample :
    (update_chart_trace 2 3 2).get? 2 = some (Event.sigEval 0) ∧
    (update_chart_trace 2 3 2).get? 3 = some (Event.annSMA 1 2) ∧
    (2 : ℕ) < 3 := by
  decide

theorem update_chart_events_length (sP lP : ℕ) :
    ∀ (n k : ℕ), (update_chart_events sP lP k n).length = 3 * n
  | 0, _ => rfl
  | n + 1, k => by
    simp [update_chart_events, update_chart_events_length sP lP n]
    omega

theorem update_chart_events_get (sP lP : ℕ) :
    ∀ (n k i : ℕ), i < n →
      (update_chart_events sP lP k n).get? (3 * i) = some (Event.annSMA (k + i) sP) ∧
      (update_chart_events sP lP k n).get? (3 * i + 1) = some (Event.annSMA (k + i) lP) ∧
      (update_chart_events sP lP k n).get? (3 * i + 2) = some (Event.sigEval (k + i))
  | 0, _, i, hi => absurd hi (by omega)
  | n + 1, k, 0, _ => by
    simp [update_chart_events]
  | n + 1, k, i + 1, hi => by
    have hi' : i < n := by omega
    have hshift : ∀ m : ℕ, (update_chart_events sP lP k (n + 1)).get? (m + 3) =
        (update_chart_events sP lP (k + 1) n).get? m := fun m => rfl
    have ih := update_chart_events_get sP lP n (k + 1) i hi'
    rw [show k + 1 + i = k + (i + 1) by omega] at ih
    refine ⟨?_, ?_, ?_⟩
    · rw [show 3 * (i + 1) = 3 * i + 3 by ring, hshift (3 * i)]
      exact ih.1
    · rw [show 3 * (i + 1) + 1 = 3 * i + 1 + 3 by ring, hshift (3 * i + 1)]
      exact ih.2.1
    · rw [show 3 * (i + 1) + 2 = 3 * i + 2 + 3 by ring, hshift (3 * i + 2)]
      exact ih.2.2

theorem orderDispatch_not_mem_events (sP lP : ℕ) :
    ∀ (n k : ℕ), Event.orderDispatch ∉ update_chart_events sP lP k n
  | 0, _ => by simp [update_chart_events]
  | n + 1, k => by
    simp [update_chart_events]
    exact fun h => orderDispatch_not_mem_events sP lP n (k + 1) h

/-- C6 (amended): within one drain cycle the effects interleave per bar —
for the `i`-th drained bar the short annotation, long annotation and signal
evaluation sit at trace positions `3i`, `3i+1`, `3i+2`, so the signal
evaluation for bar `i` precedes the annotation of bar `i+1`; the chart update
is the final event of a nonempty cycle, and no order dispatch occurs at all
(so "chart update before order dispatch" holds vacuously). -/
theorem per_bar_interleaving (sP lP n i : ℕ) (hi : i < n) :
    (update_chart_trace sP lP n).get? (3 * i) = some (Event.annSMA i sP) ∧
    (update_chart_trace sP lP n).get? (3 * i + 1) = some (Event.annSMA i lP) ∧
    (update_chart_trace sP lP n).get? (3 * i + 2) = some (Event.sigEval i) ∧
    (update_chart_trace sP lP n).get? (3 * n) = some Event.chartSet ∧
    (update_chart_trace sP lP n).length = 3 * n + 1 ∧
    Event.orderDispatch ∉ update_chart_trace sP lP n := by
  have hlen := update_chart_events_length sP lP n 0
  have hget := update_chart_events_get sP lP n 0 i hi
  have hn : n ≠ 0 := by omega
  unfold update_chart_trace
  rw [if_neg hn]
  refine ⟨?_, ?_, ?_, ?_, ?_, ?_⟩
  · rw [List.get?_append (by omega)]
    simpa using hget.1
  · rw [List.get?_append (by omega)]
    simpa using hget.2.1
  · rw [List.get?_append (by omega)]
    simpa using hget.2.2
  · rw [List.get?_append_right (by omega)]
    rw [hlen]
    simp
  · simp [hlen]
  · intro hmem
    rcases List.mem_append.mp hmem with h | h
    · exact orderDispatch_not_mem_events sP lP n 0 h
    · simp at h

theorem per_bar_interleaving_witness :
    (update_chart_trace 2 3 1).get? 0 = some (Event.annSMA 0 2) ∧
    (update_chart_trace 2 3 1).get? 1 = some (Event.annSMA 0 3) ∧
    (update_chart_trace 2 3 1).get? 2 = some (Event.sigEval 0) ∧
    (update_chart_trace 2 3 1).get? 3 = some Event.chartSet ∧
    (update_chart_trace 2 3 1).length = 3 * 1 + 1 ∧
    Event.orderDispatch ∉ update_chart_trace 2 3 1 :=
  per_bar_interleaving 2 3 1 0 (by decide)

/-- One parsed row of a fixture CSV (`simulate_historical_data_from_csv`,
ib_client_mock.py lines 146-156): `time` as read, the OHLCV fields as parsed
floats.  (`open` is a Lean keyword; the field is named `openP`.) -/
structure CsvRow where
  time : String
  openP : ℚ
  high : ℚ
  low : ℚ
  close : ℚ
  volume : ℚ
deriving DecidableEq, Repr

/-- The replay fixture directory as a mapping from file name to parsed rows. -/
def fsLookup (fs : List (String × List CsvRow)) (name : String) : Option (List CsvRow) :=
  (fs.find? (fun p => p.1 == name)).map (fun p => p.2)

/-- `MockEWrapper.historicalData` (ib_client_mock.py lines 31-46): each bar is
turned into a dict `{date, open, high, low, close, volume}` and put on the
shared queue.  The `datetime.fromtimestamp(int(bar.date))` conversion is kept
opaque as the raw time string; `int(bar.volume)` is the floor (volumes are
non-negative). -/
def barDataToDict (r : CsvRow) : PyDict :=
  [(Key.date, PyVal.str r.time), (Key.open_, PyVal.num r.openP),
   (Key.high, PyVal.num r.high), (Key.low, PyVal.num r.low),
   (Key.close, PyVal.num r.close), (Key.volume, PyVal.num (Rat.floor r.volume : ℤ))]

/-- Outcome of a `reqHistoricalData` call: the fixture file name it resolved
(`data_file`, line 127, kept in `self.mock_data_path`), whether the file was
found (line 131; when not, the call only logs an error and returns), and the
dicts enqueued on the shared queue. -/
structure ReqOutcome where
  dataFile : String
  fileFound : Bool
  enqueued : List PyDict
deriving DecidableEq, Repr

/-- `MockEClient.reqHistoricalData` (ib_client_mock.py lines 119-134):

```python
data_file = f"{contract.symbol}_{barSizeSetting.replace(' ','_')}.csv"
self.mock_data_path = os.path.join(..., "../DataFiles", data_file)
if not os.path.exists(self.mock_data_path):
    log('error', ...)
    return
self.simulate_historical_data_from_csv(reqId, self.mock_data_path)
```

When the file exists, `simulate_historical_data_from_csv` feeds every row to
`wrapper.historicalData`, which enqueues one dict per row.  The constant
directory prefix `../DataFiles` is elided: `fs` maps bare file names. -/
def replaceSpaces (s : String) : String :=
  String.mk (s.data.map (fun c => if c = ' ' then '_' else c))

def reqHistoricalData (fs : List (String × List CsvRow))
    (symbol timeframe : String) : ReqOutcome :=
  let data_file := symbol ++ "_" ++ replaceSpaces timeframe ++ ".csv"
  match fsLookup fs data_file with
  | Option.none => ⟨data_file, false, []⟩
  | Option.some rows => ⟨data_file, true, rows.map barDataToDict⟩

/-- C7: when the backing fixture file does not exist, `reqHistoricalData`
fails the call (logs an error and returns without simulating) and puts zero
bars on the queue — no partial emission.  This early-return-with-error path is
what the spec names `SourceUnavailable`. -/
theorem missing_fixture_no_emission (fs : List (String × List CsvRow))
    (symbol timeframe : String)
    (h : fsLookup fs (symbol ++ "_" ++ replaceSpaces timeframe ++ ".csv") =
      Option.none) :
    (reqHistoricalData fs symbol timeframe).fileFound = false ∧
    (reqHistoricalData fs symbol timeframe).enqueued = [] := by
  simp only [reqHistoricalData]
  rw [h]
  exact ⟨rfl, rfl⟩

theorem missing_fixture_no_emission_witness :
    (reqHistoricalData [] "AAPL" "30 secs").fileFound = false ∧
    (reqHistoricalData [] "AAPL" "30 secs").enqueued = [] :=
  missing_fixture_no_emission [] "AAPL" "30 secs" rfl

/-- C9 (counterexample): for symbol `AAPL` and timeframe `30 secs` the code
resolves the fixture to `AAPL_30_secs.csv` — spaces in the timeframe are
replaced by underscores — not to `{symbol}_{timeframe}.csv` = 
`AAPL_30 secs.csv`; a fixture stored under the latter name is not found. -/
theorem fixture_name_counterexample :
    (reqHistoricalData [("AAPL_30 secs.csv", [])] "AAPL" "30 secs").dataFile =
      "AAPL_30_secs.csv" ∧
    "AAPL_30_secs.csv" ≠ "AAPL" ++ "_" ++ "30 secs" ++ ".csv" ∧
    (reqHistoricalData [("AAPL_30 secs.csv", [])] "AAPL" "30 secs").fileFound =
      false := by
  refine ⟨by decide, by decide, by decide⟩

/-- C9 (amended): the replay variant resolves its fixture to
`{symbol}_{timeframe'}.csv` where `timeframe'` is the timeframe with every
space replaced by an underscore (`barSizeSetting.replace(' ','_')`,
line 127), and the call succeeds exactly when that name is present. -/
theorem fixture_name_resolution (fs : List (String × List CsvRow))
    (symbol timeframe : String) :
    (reqHistoricalData fs symbol timeframe).dataFile =
      symbol ++ "_" ++ replaceSpaces timeframe ++ ".csv" ∧
    (reqHistoricalData fs symbol timeframe).fileFound =
      (fsLookup fs ((reqHistoricalData fs symbol timeframe).dataFile)).isSome := by
  simp only [reqHistoricalData]
  cases h : fsLookup fs (symbol ++ "_" ++ replaceSpaces timeframe ++ ".csv") with
  | none => simp [h]
  | some rows => simp [h]

/-- C10 (counterexample): on a dict that already carries the `SMA_1` key,
`update_data_with_sma` adds no key at all — the key set is unchanged — and
the pre-existing `SMA_1` value is overwritten (from `None` to `5`). -/
theorem sma_update_overwrite_counterexample :
    ((update_data_with_sma 1 [] [(Key.close, PyVal.num 5), (Key.sma 1, PyVal.none)]).map
        Prod.fst = [Key.close, Key.sma 1]) ∧
    dictGet [(Key.close, PyVal.num 5), (Key.sma 1, PyVal.none)] (Key.sma 1) =
      some PyVal.none ∧
    dictGet (update_data_with_sma 1 []
        [(Key.close, PyVal.num 5), (Key.sma 1, PyVal.none)]) (Key.sma 1) =
      some (PyVal.num 5) := by
  refine ⟨by decide, by decide, ?_⟩
  norm_num [update_data_with_sma, dictSet, dictGet_cons, dictGet_nil, closeVal,
    pfMean, pfSum, pfRound2, pfToVal, round2, roundHalfEven]
  simp [dictGet_cons]

/-- C10 (amended): `update_data_with_sma` returns the dict it was passed with
the single key `SMA_{period}` set to the computed value — appended as exactly
one new final key when absent, overwritten in place when already present — and
every other key keeps its value.  (The `bars` argument is only read:
`bars + [data]` builds a fresh list, so the bars list is never modified.)
`hc` keeps the call on its exception-free path: the frame built from
`bars + [data]` must have a `close` column. -/
theorem sma_update_frame_effect (P : ℕ) (bars : List PyDict) (data : PyDict)
    (_hc : (dictGet data Key.close).isSome = true) :
    (∀ k, k ≠ Key.sma P →
      dictGet (update_data_with_sma P bars data) k = dictGet data k) ∧
    (∃ v, dictGet (update_data_with_sma P bars data) (Key.sma P) = some v) ∧
    (dictGet data (Key.sma P) = Option.none →
      (update_data_with_sma P bars data).map Prod.fst =
        data.map Prod.fst ++ [Key.sma P]) ∧
    (dictGet data (Key.sma P) ≠ Option.none →
      (update_data_with_sma P bars data).map Prod.fst = data.map Prod.fst) := by
  have hsh : ∃ v, update_data_with_sma P bars data = dictSet data (Key.sma P) v := by
    rw [update_eq_smaStep]
    exact smaStep_shape P (bars.map closeVal) data
  obtain ⟨v, hv⟩ := hsh
  rw [hv]
  exact ⟨fun k hk => dictGet_dictSet_ne data (Key.sma P) k v hk,
    ⟨v, dictGet_dictSet_self data (Key.sma P) v⟩,
    fun h => keys_dictSet_absent data (Key.sma P) v h,
    fun h => keys_dictSet_present data (Key.sma P) v h⟩

theorem sma_update_frame_effect_witness :
    dictGet (update_data_with_sma 1 [] [(Key.close, PyVal.num 5)]) Key.close =
      some (PyVal.num 5) ∧
    (update_data_with_sma 1 [] [(Key.close, PyVal.num 5)]).map Prod.fst =
      [Key.close, Key.sma 1] :=
  ⟨((sma_update_frame_effect 1 [] [(Key.close, PyVal.num 5)] (by decide)).1
      Key.close (by decide)).trans (by decide),
   ((sma_update_frame_effect 1 [] [(Key.close, PyVal.num 5)] (by decide)).2.2.1
      (by decide)).trans (by decide)⟩
